import Mathlib

/-!
# SingleLinkedList (single-linked-list.h): a shallow embedding

The C++ class keeps a sentinel node `head_` inside the list object, a raw
pointer `last_` and a counter `size_`; the real nodes live on the free store.
The embedding makes the free store explicit (`Heap`), represents a `Node*` by
`Ptr`, and lets every operation return `Except Fault _`: dereferencing a null
or dangling pointer and a failed `assert` are faults, and so is running out of
the loop budget (`fuel`) that bounds the `while`/`for` loops of the source.
-/

namespace SLL

/-- Ways in which an operation of the source fails to return. -/
inductive Fault where
  /-- Undefined behaviour: a null or dangling pointer is dereferenced, or an
  address that is not a live free-store node is deleted. -/
  | undefined
  /-- An `assert(...)` of the source does not hold. -/
  | assertion
  /-- The loop budget of the model is exhausted (not a behaviour of the code). -/
  | fuel
  deriving DecidableEq, Repr

/-- A value of type `Node*`: `nullptr`, the address `&head_` of the sentinel
embedded in the list object at address `obj`, or the address of a node on the
free store. -/
inductive Ptr where
  | null : Ptr
  | sentinel (obj : Nat) : Ptr
  | node (addr : Nat) : Ptr
  deriving DecidableEq, Repr

/-- The struct `Node` of the source, for a node on the free store. -/
structure Node (α : Type) where
  value : α
  next_node : Ptr

/-- The sentinel `head_`: a `Node` whose `value` is never an element of the
list; only its link is modelled. -/
structure HeadNode where
  next_node : Ptr
  deriving DecidableEq, Repr

/-- The free store: the live nodes by address, and the next address that
`new` hands out (addresses are not reused). -/
structure Heap (α : Type) where
  cells : Nat → Option (Node α)
  fresh : Nat

/-- The data members of `SingleLinkedList<Type>`, with the address of the
object itself (`this`), which is what `&head_` and `this != &rhs` refer to. -/
structure SingleLinkedList where
  self : Nat
  head_ : HeadNode
  last_ : Ptr
  size_ : Nat
  deriving DecidableEq, Repr

/-- Number of values of `size_t` (64-bit). -/
def SIZE_MOD : Nat := 2 ^ 64

/-- The effect of `++size_` on a `size_t`. -/
def sizeInc (s : Nat) : Nat := (s + 1) % SIZE_MOD

/-- The effect of `--size_` on a `size_t`. -/
def sizeDec (s : Nat) : Nat := (s + SIZE_MOD - 1) % SIZE_MOD

variable {α : Type}

/-- A free store without nodes. -/
def Heap.empty : Heap α := ⟨fun _ => none, 0⟩

/-- The expression `new Node(val, next)`; the allocation is taken to succeed. -/
def Heap.alloc (h : Heap α) (val : α) (next : Ptr) : Heap α × Ptr :=
  (⟨fun a => if a = h.fresh then some ⟨val, next⟩ else h.cells a, h.fresh + 1⟩,
   Ptr.node h.fresh)

/-- The statement `delete p`. -/
def Heap.free (h : Heap α) : Ptr → Except Fault (Heap α)
  | Ptr.null => Except.ok h
  | Ptr.sentinel _ => Except.error Fault.undefined
  | Ptr.node a =>
    match h.cells a with
    | none => Except.error Fault.undefined
    | some _ => Except.ok ⟨fun b => if b = a then none else h.cells b, h.fresh⟩

/-- Reading `p->next_node` inside a member function of the list `L`. The only
sentinel such a function can be handed within its precondition is the one of
`L` itself; the sentinel of another object is not in its reach. -/
def getNext (h : Heap α) (L : SingleLinkedList) : Ptr → Except Fault Ptr
  | Ptr.null => Except.error Fault.undefined
  | Ptr.sentinel o =>
    if o = L.self then Except.ok L.head_.next_node else Except.error Fault.undefined
  | Ptr.node a =>
    match h.cells a with
    | none => Except.error Fault.undefined
    | some n => Except.ok n.next_node

/-- The assignment `p->next_node = q` inside a member function of the list `L`. -/
def setNext (h : Heap α) (L : SingleLinkedList) (p q : Ptr) :
    Except Fault (Heap α × SingleLinkedList) :=
  match p with
  | Ptr.null => Except.error Fault.undefined
  | Ptr.sentinel o =>
    if o = L.self then Except.ok (h, { L with head_ := ⟨q⟩ })
    else Except.error Fault.undefined
  | Ptr.node a =>
    match h.cells a with
    | none => Except.error Fault.undefined
    | some n =>
      Except.ok (⟨fun b => if b = a then some { n with next_node := q } else h.cells b,
        h.fresh⟩, L)

/-- BasicIterator::operator* : `assert(node_ != nullptr); return node_->value;`.
The sentinel holds no element, reading its value is a fault. -/
def deref (h : Heap α) : Ptr → Except Fault α
  | Ptr.null => Except.error Fault.assertion
  | Ptr.sentinel _ => Except.error Fault.undefined
  | Ptr.node a =>
    match h.cells a with
    | none => Except.error Fault.undefined
    | some n => Except.ok n.value

/-- BasicIterator::operator++ :
`assert(node_ != nullptr); *this = BasicIterator{node_->next_node};`. -/
def incr (h : Heap α) (L : SingleLinkedList) (it : Ptr) : Except Fault Ptr :=
  if it = Ptr.null then Except.error Fault.assertion else getNext h L it

/-- The state of the members after their default member initialisers:
`Node head_;` (`next_node = nullptr`), `Node* last_ = head_.next_node;`,
`size_t size_ = 0;`. This is the default constructor, and the state in which
the bodies of the other constructors start. -/
def SingleLinkedList.init (self : Nat) : SingleLinkedList :=
  let head_ : HeadNode := ⟨Ptr.null⟩
  { self := self, head_ := head_, last_ := head_.next_node, size_ := 0 }

/-- GetSize. -/
def GetSize (L : SingleLinkedList) : Nat := L.size_

/-- IsEmpty. -/
def IsEmpty (L : SingleLinkedList) : Bool := L.size_ == 0

/-- The member begin() (both overloads) and cbegin(). -/
def begin (L : SingleLinkedList) : Ptr := L.head_.next_node

/-- The member before_begin() (all overloads). -/
def before_begin (L : SingleLinkedList) : Ptr := Ptr.sentinel L.self

/-- The loop of the mutable end(): `while (cur != nullptr) cur = cur->next_node;`. -/
def endWalk : Nat → Heap α → SingleLinkedList → Ptr → Except Fault Ptr
  | 0, _, _, _ => Except.error Fault.fuel
  | fuel + 1, h, L, cur =>
    if cur ≠ Ptr.null then do
      let nx ← getNext h L cur
      endWalk fuel h L nx
    else Except.ok cur

/-- The mutable end(). -/
def end_mut (fuel : Nat) (h : Heap α) (L : SingleLinkedList) : Except Fault Ptr :=
  endWalk fuel h L L.head_.next_node

/-- The members end() const and cend(): `ConstIterator{last_->next_node}`. -/
def cend (h : Heap α) (L : SingleLinkedList) : Except Fault Ptr :=
  getNext h L L.last_

/-- The values seen by `for (; it != e; ++it) { ... *it ... }`. -/
def iterate : Nat → Heap α → SingleLinkedList → Ptr → Ptr → Except Fault (List α)
  | 0, _, _, _, _ => Except.error Fault.fuel
  | fuel + 1, h, L, it, e =>
    if it ≠ e then do
      let v ← deref h it
      let nx ← incr h L it
      let rest ← iterate fuel h L nx e
      Except.ok (v :: rest)
    else Except.ok []

/-- Iterating a mutable list from begin() to end(). -/
def elements (fuel : Nat) (h : Heap α) (L : SingleLinkedList) : Except Fault (List α) := do
  let e ← end_mut fuel h L
  iterate fuel h L (begin L) e

/-- Iterating a const list from begin() to end(). -/
def constElements (fuel : Nat) (h : Heap α) (L : SingleLinkedList) :
    Except Fault (List α) := do
  let e ← cend h L
  iterate fuel h L (begin L) e

/-- The number of nodes met by following the links from the sentinel until
there is no next node. -/
def nodeCount : Nat → Heap α → SingleLinkedList → Ptr → Except Fault Nat
  | 0, _, _, _ => Except.error Fault.fuel
  | fuel + 1, h, L, cur =>
    if cur ≠ Ptr.null then do
      let nx ← getNext h L cur
      let n ← nodeCount fuel h L nx
      Except.ok (n + 1)
    else Except.ok 0

/-- InsertAfter. -/
def InsertAfter (h : Heap α) (L : SingleLinkedList) (pos : Ptr) (value : α) :
    Except Fault (Heap α × SingleLinkedList × Ptr) :=
  if pos = Ptr.null then Except.error Fault.assertion
  else if pos = L.last_ then do
    let (h1, p) := h.alloc value Ptr.null
    let (h2, L2) ← setNext h1 L L.last_ p
    let r ← getNext h2 L2 L2.last_
    Except.ok (h2, L2, r)
  else do
    let nx ← getNext h L pos
    let (h1, p) := h.alloc value nx
    let (h2, L2) ← setNext h1 L pos p
    let L3 := { L2 with size_ := sizeInc L2.size_ }
    let r ← getNext h2 L3 pos
    Except.ok (h2, L3, r)

/-- PopFront. -/
def PopFront (h : Heap α) (L : SingleLinkedList) :
    Except Fault (Heap α × SingleLinkedList) :=
  if L.head_.next_node = Ptr.null then Except.error Fault.assertion
  else do
    let copy ← getNext h L L.head_.next_node
    let h1 ← h.free L.head_.next_node
    let L1 := { L with head_ := ⟨copy⟩ }
    Except.ok (h1, { L1 with size_ := sizeDec L1.size_ })

/-- EraseAfter. -/
def EraseAfter (h : Heap α) (L : SingleLinkedList) (pos : Ptr) :
    Except Fault (Heap α × SingleLinkedList × Ptr) :=
  if pos = Ptr.null then Except.error Fault.assertion
  else do
    let nx ← getNext h L pos
    if nx = Ptr.null then Except.error Fault.assertion
    else do
      let L1 := if nx = L.last_ then { L with last_ := pos } else L
      let copy := nx
      let nn ← getNext h L1 nx
      let (h2, L2) ← setNext h L1 pos nn
      let h3 ← h2.free copy
      let L3 := { L2 with size_ := sizeDec L2.size_ }
      let r ← getNext h3 L3 pos
      Except.ok (h3, L3, r)

/-- PushBack. -/
def PushBack (h : Heap α) (L : SingleLinkedList) (val : α) :
    Except Fault (Heap α × SingleLinkedList) := do
  let (h1, newNode) := h.alloc val Ptr.null
  let (h2, L2) ← setNext h1 L L.last_ newNode
  let nx ← getNext h2 L2 L2.last_
  let L3 := { L2 with last_ := nx }
  Except.ok (h2, { L3 with size_ := sizeInc L3.size_ })

/-- PushFront. -/
def PushFront (h : Heap α) (L : SingleLinkedList) (value : α) :
    Heap α × SingleLinkedList :=
  let (h1, p) := h.alloc value L.head_.next_node
  let L1 := { L with head_ := ⟨p⟩ }
  let L2 := if L1.last_ = Ptr.null then { L1 with last_ := L1.head_.next_node } else L1
  (h1, { L2 with size_ := sizeInc L2.size_ })

/-- Clear (also the destructor). -/
def Clear : Nat → Heap α → SingleLinkedList → Except Fault (Heap α × SingleLinkedList)
  | 0, _, _ => Except.error Fault.fuel
  | fuel + 1, h, L =>
    if L.head_.next_node ≠ Ptr.null then do
      let temp := L.head_.next_node
      let nx ← getNext h L temp
      let L1 := { L with head_ := ⟨nx⟩ }
      let h1 ← h.free temp
      Clear fuel h1 L1
    else Except.ok (h, { L with size_ := 0 })

/-- The member swap: `std::swap(other.head_.next_node, head_.next_node);
std::swap(other.size_, size_);`. The first component is `*this`. -/
def swap (this other : SingleLinkedList) : SingleLinkedList × SingleLinkedList :=
  ({ this with head_ := ⟨other.head_.next_node⟩, size_ := other.size_ },
   { other with head_ := ⟨this.head_.next_node⟩, size_ := this.size_ })

/-- The free function `swap(lhs, rhs)`: `lhs.swap(rhs)`. -/
def swapFree (lhs rhs : SingleLinkedList) : SingleLinkedList × SingleLinkedList :=
  swap lhs rhs

/-- The body `for (const Type& val : values) this->PushBack(val);` over a
`std::initializer_list`. -/
def pushBackAll (h : Heap α) (L : SingleLinkedList) :
    List α → Except Fault (Heap α × SingleLinkedList)
  | [] => Except.ok (h, L)
  | val :: rest => do
    let (h1, L1) ← PushBack h L val
    pushBackAll h1 L1 rest

/-- The constructor `SingleLinkedList(std::initializer_list<Type> values)` for
an object at address `self`. -/
def ofInitializerList (h : Heap α) (self : Nat) (values : List α) :
    Except Fault (Heap α × SingleLinkedList) :=
  pushBackAll h (SingleLinkedList.init self) values

/-- The loop `for (; it != e; ++it) dst.PushBack(*it);` where `it` runs over
the list `src`. -/
def pushBackLoop : Nat → Heap α → SingleLinkedList → Ptr → Ptr → SingleLinkedList →
    Except Fault (Heap α × SingleLinkedList)
  | 0, _, _, _, _, _ => Except.error Fault.fuel
  | fuel + 1, h, src, it, e, dst =>
    if it ≠ e then do
      let val ← deref h it
      let (h1, dst1) ← PushBack h dst val
      let nx ← incr h1 src it
      pushBackLoop fuel h1 src nx e dst1
    else Except.ok (h, dst)

/-- The copy constructor `SingleLinkedList(const SingleLinkedList& other)` for
an object at address `self`, its local `temp` being at address `tmp`. -/
def copyCtor (fuel : Nat) (h : Heap α) (self tmp : Nat) (other : SingleLinkedList) :
    Except Fault (Heap α × SingleLinkedList) := do
  let this := SingleLinkedList.init self
  let temp := SingleLinkedList.init tmp
  let e ← cend h other
  let (h1, temp1) ← pushBackLoop fuel h other (begin other) e temp
  let e1 ← end_mut fuel h1 temp1
  let (h2, this2) ← pushBackLoop fuel h1 temp1 (begin temp1) e1 this
  let (h3, _) ← Clear fuel h2 temp1
  Except.ok (h3, this2)

/-- The copy assignment `operator=`; `tmp` and `tmp2` are the addresses of the
local `tmp` and of the local of its copy constructor. The result is the free
store and `*this`. -/
def assign (fuel : Nat) (h : Heap α) (tmp tmp2 : Nat) (this rhs : SingleLinkedList) :
    Except Fault (Heap α × SingleLinkedList) :=
  if this.self ≠ rhs.self then do
    let (h1, t) ← copyCtor fuel h tmp tmp2 rhs
    let (this1, t1) := swap this t
    let (h2, _) ← Clear fuel h1 t1
    Except.ok (h2, this1)
  else Except.ok (h, this)

/-- The four-iterator `std::equal` on forward iterators. -/
def std_equal [DecidableEq α] : Nat → Heap α → SingleLinkedList → SingleLinkedList →
    Ptr → Ptr → Ptr → Ptr → Except Fault Bool
  | 0, _, _, _, _, _, _, _ => Except.error Fault.fuel
  | fuel + 1, h, l1, l2, first1, last1, first2, last2 =>
    if first1 ≠ last1 ∧ first2 ≠ last2 then do
      let a ← deref h first1
      let b ← deref h first2
      if a ≠ b then Except.ok false
      else do
        let n1 ← incr h l1 first1
        let n2 ← incr h l2 first2
        std_equal fuel h l1 l2 n1 last1 n2 last2
    else Except.ok (decide (first1 = last1 ∧ first2 = last2))

/-- The algorithm `std::lexicographical_compare`. -/
def std_lexicographical_compare [LT α] [DecidableRel (fun (a b : α) => a < b)] :
    Nat → Heap α → SingleLinkedList → SingleLinkedList →
    Ptr → Ptr → Ptr → Ptr → Except Fault Bool
  | 0, _, _, _, _, _, _, _ => Except.error Fault.fuel
  | fuel + 1, h, l1, l2, first1, last1, first2, last2 =>
    if first1 ≠ last1 ∧ first2 ≠ last2 then do
      let a ← deref h first1
      let b ← deref h first2
      if a < b then Except.ok true
      else if b < a then Except.ok false
      else do
        let n1 ← incr h l1 first1
        let n2 ← incr h l2 first2
        std_lexicographical_compare fuel h l1 l2 n1 last1 n2 last2
    else Except.ok (decide (first1 = last1 ∧ first2 ≠ last2))

/-- The free `operator==` on two const lists. -/
def operatorEq [DecidableEq α] (fuel : Nat) (h : Heap α) (lhs rhs : SingleLinkedList) :
    Except Fault Bool :=
  if GetSize lhs ≠ GetSize rhs then Except.ok false
  else do
    let e1 ← cend h lhs
    let e2 ← cend h rhs
    std_equal fuel h lhs rhs (begin lhs) e1 (begin rhs) e2

/-- The free `operator<` on two const lists. -/
def operatorLt [LT α] [DecidableRel (fun (a b : α) => a < b)]
    (fuel : Nat) (h : Heap α) (lhs rhs : SingleLinkedList) : Except Fault Bool := do
  let a ← deref h (begin lhs)
  let b ← deref h (begin rhs)
  if a < b then Except.ok false
  else do
    let e1 ← cend h lhs
    let e2 ← cend h rhs
    std_lexicographical_compare fuel h lhs rhs (begin lhs) e1 (begin rhs) e2

/-! ## Well-formed lists -/


/-- The list `xs` of (address, value) pairs is the chain of live nodes that
starts at `p` and ends with a null link. -/
def Chain (h : Heap α) : Ptr → List (Nat × α) → Prop
  | p, [] => p = Ptr.null
  | p, x :: rest =>
    p = Ptr.node x.1 ∧ ∃ q, h.cells x.1 = some ⟨x.2, q⟩ ∧ Chain h q rest

/-- The address of the last node of a chain, or the sentinel of the list at
`self` when the chain is empty. -/
def lastPtr (self : Nat) (xs : List (Nat × α)) : Ptr :=
  match xs.getLast? with
  | none => Ptr.sentinel self
  | some x => Ptr.node x.1

/-- The address of the first node of a chain, or null when it is empty. -/
def firstPtr : List (Nat × α) → Ptr
  | [] => Ptr.null
  | x :: _ => Ptr.node x.1

/-- Well-formed list: the links from the sentinel form the chain `xs`, `size_`
is the number of chained nodes (a `size_t`), and `last_` is at the last node,
or at the sentinel when the list is empty. -/
def WellFormed (h : Heap α) (L : SingleLinkedList) (xs : List (Nat × α)) : Prop :=
  Chain h L.head_.next_node xs ∧ L.size_ = xs.length ∧ xs.length < SIZE_MOD ∧
    L.last_ = lastPtr L.self xs

/-- The list `[1]` at address 100, made by `PushFront(1)` on a default-constructed
list in an empty free store. -/
def exOne : Heap Int × SingleLinkedList :=
  PushFront Heap.empty (SingleLinkedList.init 100) 1

/-- Two lists in one free store: `A = [1]` at address 100 and `B = [2]` at
address 200, each made by one `PushFront` on a default-constructed list. -/
def exTwo : Heap Int × SingleLinkedList × SingleLinkedList :=
  let (h1, A) := PushFront Heap.empty (SingleLinkedList.init 100) 1
  let (h2, B) := PushFront h1 (SingleLinkedList.init 200) 2
  (h2, A, B)

/-- The list `[5, 7]` at address 100, made by `PushFront(7)` and `PushFront(5)` on a
default-constructed list in an empty free store. -/
def exFiveSeven : Heap Int × SingleLinkedList :=
  let (h1, L1) := PushFront Heap.empty (SingleLinkedList.init 100) 7
  PushFront h1 L1 5

/-- The list emptied by EraseAfter: default-constructed, `PushFront(1)`, then
`EraseAfter(before_begin())`. -/
def exErased : Except Fault (Heap Int × SingleLinkedList) :=
  (EraseAfter exOne.1 exOne.2 (before_begin exOne.2)).map (fun r => (r.1, r.2.1))

/-- The list `[1]` after `InsertAfter(begin(), 2)`, an insertion at its tail. -/
def exTailInsert : Except Fault (Heap Int × SingleLinkedList) :=
  (InsertAfter exOne.1 exOne.2 (begin exOne.2) 2).map (fun r => (r.1, r.2.1))

/-- How a member function that may throw ends: it returns a result, or an
exception leaves it; either way with the free store and the list object as
they are at that moment. -/
inductive Completion (α : Type) (β : Type) where
  | returned (h : Heap α) (L : SingleLinkedList) (result : β)
  | thrown (h : Heap α) (L : SingleLinkedList)

/-- The expression `new Node(val, next)` when the allocation or the copy of the
value may throw: `succeeds` says whether it does not. A throwing `new` creates
no node. -/
def Heap.allocMayThrow (h : Heap α) (succeeds : Bool) (val : α) (next : Ptr) :
    Option (Heap α × Ptr) :=
  if succeeds then some (h.alloc val next) else none

/-- InsertAfter, with the creation of the new node as an operation that may
throw. The statements are those of `InsertAfter`, in the order of the source:
in both branches the new-expression is evaluated before the store to
`next_node`, and in the second branch after its argument
`pos.node_->next_node` has been read. -/
def InsertAfterMayThrow (succeeds : Bool) (h : Heap α) (L : SingleLinkedList) (pos : Ptr)
    (value : α) : Except Fault (Completion α Ptr) :=
  if pos = Ptr.null then Except.error Fault.assertion
  else if pos = L.last_ then
    match h.allocMayThrow succeeds value Ptr.null with
    | none => Except.ok (Completion.thrown h L)
    | some (h1, p) => do
      let (h2, L2) ← setNext h1 L L.last_ p
      let r ← getNext h2 L2 L2.last_
      Except.ok (Completion.returned h2 L2 r)
  else do
    let nx ← getNext h L pos
    match h.allocMayThrow succeeds value nx with
    | none => Except.ok (Completion.thrown h L)
    | some (h1, p) => do
      let (h2, L2) ← setNext h1 L pos p
      let L3 := { L2 with size_ := sizeInc L2.size_ }
      let r ← getNext h2 L3 pos
      Except.ok (Completion.returned h2 L3 r)

/-! ## Chains of nodes -/

theorem Chain.first {h : Heap α} {p : Ptr} {xs : List (Nat × α)} (hc : Chain h p xs) :
    p = firstPtr xs := by
  cases xs with
  | nil => exact hc
  | cons x rest => exact hc.1

theorem Chain.functional {h : Heap α} : ∀ {xs ys : List (Nat × α)} {p : Ptr},
    Chain h p xs → Chain h p ys → xs = ys := by
  intro xs
  induction xs with
  | nil =>
    intro ys p h1 h2
    cases ys with
    | nil => rfl
    | cons y rest =>
      have e1 : p = Ptr.null := h1
      have e2 : p = Ptr.node y.1 := h2.1
      rw [e1] at e2
      cases e2
  | cons x rest ih =>
    intro ys p h1 h2
    obtain ⟨e1, q1, c1, r1⟩ := h1
    cases ys with
    | nil =>
      have e2 : p = Ptr.null := h2
      rw [e1] at e2
      cases e2
    | cons y rest2 =>
      obtain ⟨e2, q2, c2, r2⟩ := h2
      rw [e1] at e2
      have ha : x.1 = y.1 := by injection e2
      rw [← ha, c1] at c2
      have hn : (⟨x.2, q1⟩ : Node α) = ⟨y.2, q2⟩ := by injection c2
      have hv : x.2 = y.2 := by injection hn
      have hq : q1 = q2 := by injection hn
      subst hq
      have := ih r1 r2
      subst this
      have : x = y := Prod.ext ha hv
      rw [this]

theorem Chain.suffix {h : Heap α} : ∀ {s t : List (Nat × α)} {p : Ptr},
    Chain h p (s ++ t) → ∃ q, Chain h q t := by
  intro s
  induction s with
  | nil => intro t p hc; exact ⟨p, hc⟩
  | cons x rest ih =>
    intro t p hc
    obtain ⟨_, q, _, r⟩ := hc
    exact ih r

theorem Chain.head_not_mem {h : Heap α} {p : Ptr} {x : Nat × α} {rest : List (Nat × α)}
    (hc : Chain h p (x :: rest)) : ∀ z ∈ rest, z.1 ≠ x.1 := by
  intro z hz hzx
  obtain ⟨_, q, c, r⟩ := hc
  obtain ⟨s, t, rfl⟩ := List.append_of_mem hz
  obtain ⟨q1, hq1⟩ := Chain.suffix r
  obtain ⟨_, q2, c2, r2⟩ := hq1
  rw [hzx, c] at c2
  have hn : (⟨x.2, q⟩ : Node α) = ⟨z.2, q2⟩ := by injection c2
  have hq : q = q2 := by injection hn
  subst hq
  have := Chain.functional r r2
  have hl := congrArg List.length this
  simp at hl
  omega

theorem Chain.frame {h h1 : Heap α} : ∀ {xs : List (Nat × α)} {p : Ptr},
    Chain h p xs → (∀ z ∈ xs, h1.cells z.1 = h.cells z.1) → Chain h1 p xs := by
  intro xs
  induction xs with
  | nil => intro p hc _; exact hc
  | cons x rest ih =>
    intro p hc hf
    obtain ⟨e, q, c, r⟩ := hc
    refine ⟨e, q, ?_, ih r (fun z hz => hf z (List.mem_cons_of_mem _ hz))⟩
    rw [hf x (List.mem_cons_self _ _)]
    exact c

theorem Chain.replace_suffix {h h1 : Heap α} {t t1 : List (Nat × α)} :
    ∀ {s : List (Nat × α)} {p : Ptr}, Chain h p (s ++ t) →
      (∀ z ∈ s, h1.cells z.1 = h.cells z.1) →
      (∀ q, Chain h q t → Chain h1 q t1) → Chain h1 p (s ++ t1) := by
  intro s
  induction s with
  | nil => intro p hc _ ht; exact ht p hc
  | cons x rest ih =>
    intro p hc hf ht
    obtain ⟨e, q, c, r⟩ := hc
    refine ⟨e, q, ?_, ih r (fun z hz => hf z (List.mem_cons_of_mem _ hz)) ht⟩
    rw [hf x (List.mem_cons_self _ _)]
    exact c

/-- Every address of a chain occurs in it once: the addresses before a node
and after it differ from its own. -/
theorem Chain.split_ne {h : Heap α} : ∀ {s t : List (Nat × α)} {p : Ptr} {x : Nat × α},
    Chain h p (s ++ x :: t) → (∀ z ∈ s, z.1 ≠ x.1) ∧ (∀ z ∈ t, z.1 ≠ x.1) := by
  intro s
  induction s with
  | nil =>
    intro t p x hc
    exact ⟨fun z hz => (by cases hz), Chain.head_not_mem hc⟩
  | cons y rest ih =>
    intro t p x hc
    have hy := Chain.head_not_mem hc
    obtain ⟨_, q, _, r⟩ := hc
    obtain ⟨h1, h2⟩ := ih r
    refine ⟨?_, h2⟩
    intro z hz
    cases hz with
    | head => exact fun e => hy x (by simp) e.symm
    | tail _ hz1 => exact h1 z hz1

theorem Chain.walk {h : Heap α} (L : SingleLinkedList) :
    ∀ {xs : List (Nat × α)} {p : Ptr}, Chain h p xs → ∀ fuel, xs.length < fuel →
      endWalk fuel h L p = Except.ok Ptr.null ∧
      iterate fuel h L p Ptr.null = Except.ok (xs.map Prod.snd) ∧
      nodeCount fuel h L p = Except.ok xs.length := by
  intro xs
  induction xs with
  | nil =>
    intro p hc fuel hf
    have : p = Ptr.null := hc
    subst this
    cases fuel with
    | zero => omega
    | succ n => simp [endWalk, iterate, nodeCount]
  | cons x rest ih =>
    intro p hc fuel hf
    obtain ⟨e, q, c, r⟩ := hc
    subst e
    cases fuel with
    | zero => omega
    | succ n =>
      have hn : rest.length < n := by simp at hf; omega
      obtain ⟨i1, i2, i3⟩ := ih r n hn
      simp [endWalk, iterate, nodeCount, getNext, deref, incr, c, i1, i2, i3, bind,
        Except.bind]

theorem lastPtr_nil (self : Nat) : lastPtr self ([] : List (Nat × α)) = Ptr.sentinel self := rfl

theorem lastPtr_concat (self : Nat) (s : List (Nat × α)) (x : Nat × α) :
    lastPtr self (s ++ [x]) = Ptr.node x.1 := by
  simp [lastPtr]

theorem lastPtr_append_concat (self : Nat) (s t : List (Nat × α)) (x : Nat × α) :
    lastPtr self (s ++ (t ++ [x])) = Ptr.node x.1 := by
  rw [← List.append_assoc]
  exact lastPtr_concat self (s ++ t) x

theorem sizeDec_succ {n : Nat} (hn : n + 1 < SIZE_MOD) : sizeDec (n + 1) = n := by
  unfold sizeDec
  have : SIZE_MOD = 18446744073709551616 := by norm_num [SIZE_MOD]
  rw [this] at hn ⊢
  omega

/-- In a well-formed list the node after position `lastPtr pre` is the tail
exactly when nothing follows it. -/
theorem WellFormed.next_is_last_iff {h : Heap α} {L : SingleLinkedList}
    {pre post : List (Nat × α)} {x : Nat × α} (hwf : WellFormed h L (pre ++ x :: post)) :
    (Ptr.node x.1 = L.last_ ↔ post = []) ∧
      (post ≠ [] → L.last_ = lastPtr L.self (pre ++ post)) := by
  obtain ⟨hc, _, _, hl⟩ := hwf
  obtain ⟨_, hpost⟩ := Chain.split_ne hc
  rcases List.eq_nil_or_concat post with rfl | ⟨t, z, rfl⟩
  · rw [lastPtr_concat] at hl
    simp [hl]
  · simp only [List.concat_eq_append] at *
    have e1 : pre ++ x :: (t ++ [z]) = pre ++ ((x :: t) ++ [z]) := by simp
    rw [e1, lastPtr_append_concat] at hl
    rw [lastPtr_append_concat, hl]
    have hz : z.1 ≠ x.1 := hpost z (by simp)
    simp
    exact fun e => hz e.symm

/-- What EraseAfter computes at the position in front of the node `x`. -/
theorem EraseAfter_eval (h : Heap α) (L : SingleLinkedList) (pre post : List (Nat × α))
    (x : Nat × α) (hwf : WellFormed h L (pre ++ x :: post)) :
    ∃ h1 L1, EraseAfter h L (lastPtr L.self pre) = Except.ok (h1, L1, firstPtr post) ∧
      Chain h1 L1.head_.next_node (pre ++ post) ∧
      L1.self = L.self ∧
      L1.size_ = sizeDec L.size_ ∧
      (post = [] → L1.last_ = lastPtr L.self pre) ∧
      (post ≠ [] → L1.last_ = L.last_) ∧
      h1.cells x.1 = none ∧
      getNext h1 L1 (lastPtr L.self pre) = Except.ok (firstPtr post) := by
  obtain ⟨hlast, _⟩ := hwf.next_is_last_iff
  obtain ⟨hc, hs, hlt, hl⟩ := hwf
  obtain ⟨hpre, hpost⟩ := Chain.split_ne hc
  obtain ⟨q0, hq0⟩ := Chain.suffix hc
  obtain ⟨e0, q, cx, rpost⟩ := hq0
  have hq : q = firstPtr post := rpost.first
  subst e0
  rcases List.eq_nil_or_concat pre with rfl | ⟨s, y, rfl⟩
  · -- the position is the sentinel
    simp only [List.nil_append] at *
    have hh : L.head_.next_node = Ptr.node x.1 := hc.1
    have hfr : Chain (⟨fun b => if b = x.1 then none else h.cells b, h.fresh⟩ : Heap α) q post :=
      rpost.frame (fun z hz => by simp [hpost z hz])
    by_cases hp : post = []
    · have hx : Ptr.node x.1 = L.last_ := hlast.2 hp
      refine ⟨⟨fun b => if b = x.1 then none else h.cells b, h.fresh⟩,
        { self := L.self, head_ := ⟨q⟩, last_ := Ptr.sentinel L.self,
          size_ := sizeDec L.size_ }, ?_, ?_, rfl, rfl, ?_, ?_, ?_, ?_⟩
      · simp [EraseAfter, lastPtr_nil, getNext, hh, cx, setNext, Heap.free, bind,
          Except.bind, ← hx, hq]
      · simpa using hfr
      · intro _; simp [lastPtr_nil]
      · intro hn; exact absurd hp hn
      · simp
      · simp [lastPtr_nil, getNext, hq]
    · have hx : ¬ Ptr.node x.1 = L.last_ := fun e => hp (hlast.1 e)
      refine ⟨⟨fun b => if b = x.1 then none else h.cells b, h.fresh⟩,
        { self := L.self, head_ := ⟨q⟩, last_ := L.last_,
          size_ := sizeDec L.size_ }, ?_, ?_, rfl, rfl, ?_, ?_, ?_, ?_⟩
      · simp [EraseAfter, lastPtr_nil, getNext, hh, cx, setNext, Heap.free, bind,
          Except.bind, hx, hq]
      · simpa using hfr
      · intro hn; exact absurd hn hp
      · intro _; rfl
      · simp
      · simp [lastPtr_nil, getNext, hq]
  · -- the position is the real node y
    simp only [List.concat_eq_append] at *
    have hyx : y.1 ≠ x.1 := hpre y (by simp)
    have hxy : x.1 ≠ y.1 := fun e => hyx e.symm
    have hc1 : Chain h L.head_.next_node (s ++ y :: x :: post) := by simpa using hc
    obtain ⟨hsy, hty⟩ := Chain.split_ne hc1
    obtain ⟨q1, hq1⟩ := Chain.suffix hc1
    obtain ⟨_, q2, cy, ry⟩ := hq1
    have hq2 : q2 = Ptr.node x.1 := ry.1
    subst hq2
    have hnew : Chain (⟨fun b => if b = x.1 then none else
          if b = y.1 then some ⟨y.2, q⟩ else h.cells b, h.fresh⟩ : Heap α)
        L.head_.next_node (s ++ y :: post) := by
      refine Chain.replace_suffix hc1 ?_ ?_
      · intro z hz
        have h1 : z.1 ≠ y.1 := hsy z hz
        have h2 : z.1 ≠ x.1 := hpre z (by simp [hz])
        simp [h1, h2]
      · intro p hp
        refine ⟨hp.1, q, by simp [hyx], rpost.frame ?_⟩
        intro z hz
        have h1 : z.1 ≠ y.1 := hty z (by simp [hz])
        have h2 : z.1 ≠ x.1 := hpost z hz
        simp [h1, h2]
    have hpos : lastPtr L.self (s ++ [y]) = Ptr.node y.1 := lastPtr_concat _ _ _
    by_cases hp : post = []
    · have hx : Ptr.node x.1 = L.last_ := hlast.2 hp
      refine ⟨⟨fun b => if b = x.1 then none else
          if b = y.1 then some ⟨y.2, q⟩ else h.cells b, h.fresh⟩,
        { self := L.self, head_ := L.head_, last_ := Ptr.node y.1,
          size_ := sizeDec L.size_ }, ?_, ?_, rfl, rfl, ?_, ?_, ?_, ?_⟩
      · simp [EraseAfter, hpos, getNext, cy, cx, setNext, Heap.free, bind,
          Except.bind, ← hx, hq, hxy, hyx]
      · simpa using hnew
      · intro _; simp [hpos]
      · intro hn; exact absurd hp hn
      · simp
      · simp [hpos, getNext, hq, hyx]
    · have hx : ¬ Ptr.node x.1 = L.last_ := fun e => hp (hlast.1 e)
      refine ⟨⟨fun b => if b = x.1 then none else
          if b = y.1 then some ⟨y.2, q⟩ else h.cells b, h.fresh⟩,
        { self := L.self, head_ := L.head_, last_ := L.last_,
          size_ := sizeDec L.size_ }, ?_, ?_, rfl, rfl, ?_, ?_, ?_, ?_⟩
      · simp [EraseAfter, hpos, getNext, cy, cx, setNext, Heap.free, bind,
          Except.bind, hx, hq, hxy, hyx]
      · simpa using hnew
      · intro hn; exact absurd hn hp
      · intro _; rfl
      · simp
      · simp [hpos, getNext, hq, hyx]

/-! ## The claims -/

/-- C1 (fails on the code): the constructor from an initializer list starts
with `last_ == nullptr` and calls PushBack, whose first statement
`last_->next_node = newNode` dereferences that null pointer; so for every
non-empty sequence of values, `[1]` in particular, no list is constructed. -/
theorem ofInitializerList_nonempty_fault :
    ofInitializerList (Heap.empty : Heap Int) 100 [1] = Except.error Fault.undefined ∧
    ∀ (h : Heap Int) (self : Nat) (v : Int) (S : List Int),
      ofInitializerList h self (v :: S) = Except.error Fault.undefined :=
  ⟨rfl, fun _ _ _ _ => rfl⟩

/-- C2 (fails on the code): on the well-formed list `[1]`, InsertAfter at the
tail node with value 2 links the new node behind the tail and returns it, the
list then iterates `[1, 2]`, but GetSize() is still 1 and the tail reference
still is the old tail (node 0), not the new node (node 1). -/
theorem InsertAfter_at_tail_keeps_size_and_tail :
    WellFormed exOne.1 exOne.2 [(0, 1)] ∧
    exOne.2.last_ = begin exOne.2 ∧
    (InsertAfter exOne.1 exOne.2 (begin exOne.2) 2).map
        (fun r => (elements 3 r.1 r.2.1, GetSize r.2.1, r.2.1.last_, r.2.2)) =
      Except.ok (Except.ok [1, 2], 1, Ptr.node 0, Ptr.node 1) :=
  ⟨⟨⟨rfl, Ptr.null, rfl, rfl⟩, rfl, by decide, rfl⟩, rfl, rfl⟩

/-- C3: on a well-formed list whose chain is `pre ++ x :: post`, EraseAfter at
the position in front of `x` (the sentinel when `pre` is empty, else the last
node of `pre`) returns; it releases exactly the node `x`, the list is
well-formed again with the chain `pre ++ post` (the other nodes, in order) and
iterates their values, GetSize() has decreased by 1, the tail reference is the
position itself when `x` was the tail and is unchanged otherwise, and the
returned iterator is the node that now follows the position, which is end()
when nothing follows. -/
theorem EraseAfter_spec (h : Heap α) (L : SingleLinkedList) (pre post : List (Nat × α))
    (x : Nat × α) (hwf : WellFormed h L (pre ++ x :: post)) :
    ∃ h1 L1, EraseAfter h L (lastPtr L.self pre) = Except.ok (h1, L1, firstPtr post) ∧
      WellFormed h1 L1 (pre ++ post) ∧
      h1.cells x.1 = none ∧
      (∀ fuel, (pre ++ x :: post).length < fuel →
        elements fuel h L = Except.ok ((pre ++ x :: post).map Prod.snd) ∧
        elements fuel h1 L1 = Except.ok ((pre ++ post).map Prod.snd)) ∧
      GetSize L1 + 1 = GetSize L ∧
      (L.last_ = Ptr.node x.1 → L1.last_ = lastPtr L.self pre) ∧
      (L.last_ ≠ Ptr.node x.1 → L1.last_ = L.last_) ∧
      getNext h1 L1 (lastPtr L.self pre) = Except.ok (firstPtr post) ∧
      (post = [] → ∀ fuel, pre.length < fuel →
        end_mut fuel h1 L1 = Except.ok (firstPtr post)) := by
  obtain ⟨hlast, hkeep⟩ := hwf.next_is_last_iff
  obtain ⟨h1, L1, hev, hch, hself, hsz, hl1, hl2, hrel, hnx⟩ := EraseAfter_eval h L pre post x hwf
  obtain ⟨hc, hs, hlt, hl⟩ := hwf
  have hlen : (pre ++ x :: post).length = (pre ++ post).length + 1 := by simp; omega
  have hsz1 : L1.size_ = (pre ++ post).length := by
    rw [hsz, hs, hlen]
    exact sizeDec_succ (by rw [← hlen]; exact hlt)
  have hwf1 : WellFormed h1 L1 (pre ++ post) := by
    refine ⟨hch, hsz1, by omega, ?_⟩
    by_cases hp : post = []
    · rw [hl1 hp, hself, hp, List.append_nil]
    · rw [hl2 hp, hself]
      exact hkeep hp
  refine ⟨h1, L1, hev, hwf1, hrel, ?_, ?_, ?_, ?_, hnx, ?_⟩
  · intro fuel hf
    constructor
    · have hw := Chain.walk L hc fuel hf
      simp [elements, end_mut, begin, hw.1, hw.2.1, bind, Except.bind]
    · have hw := Chain.walk L1 hch fuel (by omega)
      simp [elements, end_mut, begin, hw.1, hw.2.1, bind, Except.bind]
  · simp only [GetSize]
    rw [hsz1, hs, hlen]
  · intro e
    exact hl1 (hlast.1 e.symm)
  · intro e
    exact hl2 (fun hp => e (hlast.2 hp).symm)
  · intro hp fuel hf
    have hw := Chain.walk L1 hch fuel (by simp [hp]; exact hf)
    simp [end_mut, hw.1, hp, firstPtr]

/-- C3, at a concrete input: EraseAfter behind the first node of the list
`[5, 7]` removes the tail node. -/
theorem EraseAfter_spec_witness :
    WellFormed exFiveSeven.1 exFiveSeven.2 ([(1, (5 : Int))] ++ (0, 7) :: []) ∧
    ∃ h1 L1, EraseAfter exFiveSeven.1 exFiveSeven.2
          (lastPtr exFiveSeven.2.self [(1, (5 : Int))]) =
        Except.ok (h1, L1, firstPtr ([] : List (Nat × Int))) ∧
      WellFormed h1 L1 ([(1, (5 : Int))] ++ []) ∧
      h1.cells (0, (7 : Int)).1 = none ∧
      (∀ fuel, ([(1, (5 : Int))] ++ (0, 7) :: []).length < fuel →
        elements fuel exFiveSeven.1 exFiveSeven.2 =
          Except.ok (([(1, (5 : Int))] ++ (0, 7) :: []).map Prod.snd) ∧
        elements fuel h1 L1 = Except.ok (([(1, (5 : Int))] ++ []).map Prod.snd)) ∧
      GetSize L1 + 1 = GetSize exFiveSeven.2 ∧
      (exFiveSeven.2.last_ = Ptr.node (0, (7 : Int)).1 →
        L1.last_ = lastPtr exFiveSeven.2.self [(1, (5 : Int))]) ∧
      (exFiveSeven.2.last_ ≠ Ptr.node (0, (7 : Int)).1 → L1.last_ = exFiveSeven.2.last_) ∧
      getNext h1 L1 (lastPtr exFiveSeven.2.self [(1, (5 : Int))]) =
        Except.ok (firstPtr ([] : List (Nat × Int))) ∧
      (([] : List (Nat × Int)) = [] → ∀ fuel, [(1, (5 : Int))].length < fuel →
        end_mut fuel h1 L1 = Except.ok (firstPtr ([] : List (Nat × Int)))) :=
  have hwf : WellFormed exFiveSeven.1 exFiveSeven.2 ([(1, (5 : Int))] ++ (0, 7) :: []) :=
    ⟨⟨rfl, Ptr.node 0, rfl, rfl, Ptr.null, rfl, rfl⟩, rfl, by decide, rfl⟩
  ⟨hwf, EraseAfter_spec exFiveSeven.1 exFiveSeven.2 [(1, 5)] [] (0, 7) hwf⟩

/-- C4 (fails on the code): after `PushFront(1)` on a default-constructed list
and `InsertAfter(begin(), 2)`, both within their preconditions, following the
links from the sentinel meets 2 nodes while GetSize() is 1. -/
theorem size_differs_from_node_count_after_InsertAfter :
    (InsertAfter exOne.1 exOne.2 (begin exOne.2) 2).map
        (fun r => (nodeCount 3 r.1 r.2.1 r.2.1.head_.next_node, GetSize r.2.1)) =
      Except.ok (Except.ok 2, 1) :=
  rfl

/-- C5 (fails on the code): swap exchanges the chains and the sizes but not the
tail references. With `A = [1]` and `B = [2]`, after `A.swap(B)` the list A
iterates `[2]` and B iterates `[1]`, yet the tail reference of A still is the
node holding 1, which B now owns; a following `A.PushBack(3)` returns, leaves A
iterating `[2]` with GetSize() 2, and makes B iterate `[1, 3]`. -/
theorem swap_keeps_tail_references :
    elements 3 exTwo.1 (swap exTwo.2.1 exTwo.2.2).1 = Except.ok [2] ∧
    GetSize (swap exTwo.2.1 exTwo.2.2).1 = 1 ∧
    elements 3 exTwo.1 (swap exTwo.2.1 exTwo.2.2).2 = Except.ok [1] ∧
    GetSize (swap exTwo.2.1 exTwo.2.2).2 = 1 ∧
    (swap exTwo.2.1 exTwo.2.2).1.last_ = exTwo.2.1.last_ ∧
    (swap exTwo.2.1 exTwo.2.2).1.last_ = begin (swap exTwo.2.1 exTwo.2.2).2 ∧
    (swap exTwo.2.1 exTwo.2.2).2.last_ = exTwo.2.2.last_ ∧
    (swap exTwo.2.1 exTwo.2.2).2.last_ = begin (swap exTwo.2.1 exTwo.2.2).1 ∧
    (PushBack exTwo.1 (swap exTwo.2.1 exTwo.2.2).1 3).map
        (fun r => (elements 4 r.1 r.2, GetSize r.2,
          elements 4 r.1 (swap exTwo.2.1 exTwo.2.2).2)) =
      Except.ok (Except.ok [2], 2, Except.ok [1, 3]) :=
  ⟨rfl, rfl, rfl, rfl, rfl, rfl, rfl, rfl, rfl⟩

/-- C6: the member swap, and the free function swap, performed twice in a row
give back both list objects as they were (chain, GetSize() and tail reference);
swap does not touch the free store, so each list iterates what it iterated
before. -/
theorem swap_swap (A B : SingleLinkedList) :
    swap (swap A B).1 (swap A B).2 = (A, B) ∧
    swapFree (swapFree A B).1 (swapFree A B).2 = (A, B) ∧
    (swap (swap A B).1 (swap A B).2).1.last_ = A.last_ ∧
    (swap (swap A B).1 (swap A B).2).2.last_ = B.last_ ∧
    GetSize (swap (swap A B).1 (swap A B).2).1 = GetSize A ∧
    GetSize (swap (swap A B).1 (swap A B).2).2 = GetSize B ∧
    ∀ (fuel : Nat) (h : Heap α),
      elements fuel h (swap (swap A B).1 (swap A B).2).1 = elements fuel h A ∧
      elements fuel h (swap (swap A B).1 (swap A B).2).2 = elements fuel h B :=
  ⟨rfl, rfl, rfl, rfl, rfl, rfl, fun _ _ => ⟨rfl, rfl⟩⟩

/-- C7 (fails on the code): copy-constructing from the list `[1]` does not
return. The copy constructor appends to its local `temp`, a default-constructed
list whose `last_` is null, with PushBack, which dereferences that null
pointer. Copying a default-constructed list does not return either: iterating
the const source reads `last_->next_node` through its null `last_`. -/
theorem copyCtor_nonempty_fault :
    constElements 2 exOne.1 exOne.2 = Except.ok [1] ∧
    (∀ (fuel self tmp : Nat),
      copyCtor (fuel + 1) exOne.1 self tmp exOne.2 = Except.error Fault.undefined) ∧
    ∀ (fuel self tmp a : Nat) (h : Heap Int),
      copyCtor fuel h self tmp (SingleLinkedList.init a) = Except.error Fault.undefined :=
  ⟨rfl, fun _ _ _ => rfl, fun _ _ _ _ _ => rfl⟩

/-- C8 (fails on the code): assigning the list `[1]` to a default-constructed
list at another address does not return, because the copy constructor that
operator= calls dereferences a null pointer; the self-assignment `A = A` does
leave A and the free store unchanged. -/
theorem assign_nonempty_fault :
    (∀ (fuel tmp tmp2 : Nat),
      assign (fuel + 1) exOne.1 tmp tmp2 (SingleLinkedList.init 200) exOne.2 =
        Except.error Fault.undefined) ∧
    ∀ (fuel tmp tmp2 : Nat) (h : Heap Int) (A : SingleLinkedList),
      assign fuel h tmp tmp2 A A = Except.ok (h, A) :=
  ⟨fun _ _ _ => rfl, fun _ _ _ _ _ => by simp [assign]⟩

/-- C9 (fails on the code): comparing default-constructed (empty) lists with
operator== does not return true: the sizes agree, and `lhs.end()` on the const
list reads `last_->next_node` with `last_ == nullptr`. This holds for `L == L`
and for two distinct empty lists. -/
theorem operatorEq_default_constructed_fault (fuel : Nat) (h : Heap Int) (a b : Nat) :
    operatorEq fuel h (SingleLinkedList.init a) (SingleLinkedList.init a) =
      Except.error Fault.undefined ∧
    operatorEq fuel h (SingleLinkedList.init a) (SingleLinkedList.init b) =
      Except.error Fault.undefined :=
  ⟨rfl, rfl⟩

/-- C10 (fails on the code): with `A = [1]` and `B = [2]`, `A < B` returns false
although `[1]` lexicographically precedes `[2]`: operator< returns false as soon
as the first element of the left list is less than that of the right one. It
also dereferences begin() of both lists, which fails the assertion of
operator* when a list is empty. -/
theorem operatorLt_first_element_less_is_false :
    elements 2 exTwo.1 exTwo.2.1 = Except.ok [1] ∧
    elements 2 exTwo.1 exTwo.2.2 = Except.ok [2] ∧
    operatorLt 3 exTwo.1 exTwo.2.1 exTwo.2.2 = Except.ok false ∧
    ∀ (fuel : Nat) (h : Heap Int) (a b : Nat),
      operatorLt fuel h (SingleLinkedList.init a) (SingleLinkedList.init b) =
        Except.error Fault.assertion :=
  ⟨rfl, rfl, rfl, fun _ _ _ _ => rfl⟩

/-- C11 (fails on the code): on a default-constructed list,
`InsertAfter(before_begin(), 1)` and `PushFront(1)` both give a list that
iterates `[1]` with GetSize() 1, but InsertAfter leaves the tail reference null
where PushFront sets it to the new node. On the list emptied by EraseAfter,
whose tail reference is the sentinel, `InsertAfter(before_begin(), 5)` leaves
GetSize() at 0 where `PushFront(5)` makes it 1. -/
theorem InsertAfter_before_begin_differs_from_PushFront :
    (InsertAfter (Heap.empty : Heap Int) (SingleLinkedList.init 100)
        (before_begin (SingleLinkedList.init 100)) 1).map
        (fun r => (elements 2 r.1 r.2.1, GetSize r.2.1, r.2.1.last_)) =
      Except.ok (Except.ok [1], 1, Ptr.null) ∧
    (fun (r : Heap Int × SingleLinkedList) => (elements 2 r.1 r.2, GetSize r.2, r.2.last_))
        (PushFront Heap.empty (SingleLinkedList.init 100) 1) =
      (Except.ok [1], 1, Ptr.node 0) ∧
    (exErased.bind (fun s => InsertAfter s.1 s.2 (before_begin s.2) 5)).map
        (fun r => (elements 2 r.1 r.2.1, GetSize r.2.1, r.2.1.last_)) =
      Except.ok (Except.ok [5], 0, Ptr.sentinel 100) ∧
    exErased.map (fun s => (fun (r : Heap Int × SingleLinkedList) =>
        (elements 2 r.1 r.2, GetSize r.2, r.2.last_)) (PushFront s.1 s.2 5)) =
      Except.ok (Except.ok [5], 1, Ptr.sentinel 100) :=
  ⟨rfl, rfl, rfl, rfl⟩

/-- C12 (fails on the code): on the list `[1]` with GetSize() 1, calling
`InsertAfter(begin(), 2)` at the tail node and then `EraseAfter(begin())` gives
back the element sequence `[1]` and the tail reference, but GetSize() is 0:
the insertion at the tail did not count the node that the erasure discounts. -/
theorem InsertAfter_EraseAfter_at_tail_loses_size :
    elements 2 exOne.1 exOne.2 = Except.ok [1] ∧ GetSize exOne.2 = 1 ∧
    exOne.2.last_ = begin exOne.2 ∧
    ((InsertAfter exOne.1 exOne.2 (begin exOne.2) 2).bind
        (fun r => EraseAfter r.1 r.2.1 (begin exOne.2))).map
        (fun r => (elements 2 r.1 r.2.1, GetSize r.2.1, r.2.1.last_)) =
      Except.ok (Except.ok [1], 0, exOne.2.last_) :=
  ⟨rfl, rfl, rfl, rfl⟩

/-- C13 (fails on the code): PushBack on a default-constructed list does not
return, for any value: `last_` is null and PushBack executes
`last_->next_node = newNode`. No single-element list is produced. -/
theorem PushBack_default_constructed_fault (h : Heap α) (self : Nat) (v : α) :
    PushBack h (SingleLinkedList.init self) v = Except.error Fault.undefined :=
  rfl

/-- C16 (fails on the code): PushFront sets the tail reference only when it is
null. On the list emptied by `EraseAfter(before_begin())` the tail reference is
the sentinel, and after `PushFront(2)` it still is the sentinel, not the new
node; a following `PushBack(3)` then makes the list iterate `[3]`. After
`PushFront(1)` and PopFront or Clear the tail reference is the released node 0,
and after `PushFront(2)` it still is, while the new node is node 1. -/
theorem PushFront_on_emptied_list_keeps_tail :
    exErased.map (fun s => (IsEmpty s.2, s.2.last_)) =
      Except.ok (true, Ptr.sentinel 100) ∧
    exErased.map (fun s => (fun (r : Heap Int × SingleLinkedList) =>
        (elements 2 r.1 r.2, GetSize r.2, r.2.last_, begin r.2)) (PushFront s.1 s.2 2)) =
      Except.ok (Except.ok [2], 1, Ptr.sentinel 100, Ptr.node 1) ∧
    (exErased.bind (fun s => PushBack (PushFront s.1 s.2 2).1 (PushFront s.1 s.2 2).2 3)).map
        (fun r => elements 3 r.1 r.2) = Except.ok (Except.ok [3]) ∧
    (PopFront exOne.1 exOne.2).map (fun s =>
        (fun (r : Heap Int × SingleLinkedList) =>
          (IsEmpty s.2, r.2.last_, begin r.2, (r.1.cells 0).isSome))
          (PushFront s.1 s.2 2)) =
      Except.ok (true, Ptr.node 0, Ptr.node 1, false) ∧
    (Clear 2 exOne.1 exOne.2).map (fun s =>
        (fun (r : Heap Int × SingleLinkedList) =>
          (IsEmpty s.2, r.2.last_, begin r.2, (r.1.cells 0).isSome))
          (PushFront s.1 s.2 2)) =
      Except.ok (true, Ptr.node 0, Ptr.node 1, false) :=
  ⟨rfl, rfl, rfl, rfl, rfl⟩

/-- C18 (fails on the code): right after default construction the tail
reference is null, not the sentinel. PopFront and Clear do not touch it: after
`PushFront(1)` and PopFront, or Clear, GetSize() is 0 and the tail reference is
the released node 0. After `InsertAfter(begin(), 2)` on `[1]` the tail reference
is node 0, whose next link is the new node. -/
theorem tail_reference_not_maintained :
    (∀ self : Nat, (SingleLinkedList.init self).last_ = Ptr.null ∧
      (SingleLinkedList.init self).last_ ≠ Ptr.sentinel self ∧
      GetSize (SingleLinkedList.init self) = 0) ∧
    (PopFront exOne.1 exOne.2).map
        (fun s => (GetSize s.2, s.2.last_, (s.1.cells 0).isSome)) =
      Except.ok (0, Ptr.node 0, false) ∧
    (Clear 2 exOne.1 exOne.2).map
        (fun s => (GetSize s.2, s.2.last_, (s.1.cells 0).isSome)) =
      Except.ok (0, Ptr.node 0, false) ∧
    exTailInsert.map (fun s => (s.2.last_, getNext s.1 s.2 s.2.last_)) =
      Except.ok (Ptr.node 0, Except.ok (Ptr.node 1)) :=
  ⟨fun _ => ⟨rfl, fun e => Ptr.noConfusion e, rfl⟩, rfl, rfl, rfl⟩

/-- C19 (fails on the code): after `PushFront(1)`, `EraseAfter(before_begin())` and
`InsertAfter(before_begin(), 5)`, all within their preconditions, IsEmpty() is
true while begin() is the node holding 5 and end() is null: the list reports
empty and iterates `[5]`. -/
theorem IsEmpty_with_begin_not_end :
    (exErased.bind (fun s => InsertAfter s.1 s.2 (before_begin s.2) 5)).map
        (fun r => (IsEmpty r.2.1, begin r.2.1, end_mut 2 r.1 r.2.1, elements 2 r.1 r.2.1)) =
      Except.ok (true, Ptr.node 1, Except.ok Ptr.null, Except.ok [5]) :=
  rfl

/-- C20 (fails on the code): on a default-constructed list the read-only end()
is not defined (it reads `last_->next_node` through the null `last_`) while the
mutable end() returns null. After `InsertAfter(begin(), 2)` on `[1]` the
read-only end() is the new node and the mutable end() is null: the read-only
traversal visits `[1]`, the mutable one `[1, 2]`. -/
theorem cend_differs_from_end :
    (∀ (fuel self : Nat) (h : Heap Int),
      cend h (SingleLinkedList.init self) = Except.error Fault.undefined ∧
      end_mut (fuel + 1) h (SingleLinkedList.init self) = Except.ok Ptr.null) ∧
    exTailInsert.map (fun s =>
        (cend s.1 s.2, end_mut 3 s.1 s.2, constElements 3 s.1 s.2, elements 3 s.1 s.2)) =
      Except.ok (Except.ok (Ptr.node 1), Except.ok Ptr.null, Except.ok [1],
        Except.ok [1, 2]) :=
  ⟨fun _ _ _ => ⟨rfl, rfl⟩, rfl⟩

/-! ## Clear, PushBack and node creation that may throw -/

theorem Chain.live {h : Heap α} : ∀ {xs : List (Nat × α)} {p : Ptr}, Chain h p xs →
    ∀ z ∈ xs, ∃ q, h.cells z.1 = some ⟨z.2, q⟩ := by
  intro xs
  induction xs with
  | nil => intro p _ z hz; cases hz
  | cons x rest ih =>
    intro p hc z hz
    obtain ⟨_, q, c, r⟩ := hc
    cases hz with
    | head => exact ⟨q, c⟩
    | tail _ hz1 => exact ih r z hz1

/-- What Clear computes on a list whose links form the chain `xs`. -/
theorem Clear_eval : ∀ (xs : List (Nat × α)) (h : Heap α) (L : SingleLinkedList) (fuel : Nat),
    Chain h L.head_.next_node xs → xs.length < fuel →
    ∃ h1, Clear fuel h L =
        Except.ok (h1, { self := L.self, head_ := ⟨Ptr.null⟩, last_ := L.last_, size_ := 0 }) ∧
      (∀ a, (h.cells a = none ∨ ∃ z ∈ xs, z.1 = a) → h1.cells a = none) := by
  intro xs
  induction xs with
  | nil =>
    intro h L fuel hc hf
    have hn : L.head_.next_node = Ptr.null := hc
    cases fuel with
    | zero => omega
    | succ n =>
      refine ⟨h, ?_, ?_⟩
      · have : L.head_ = ⟨Ptr.null⟩ := by
          cases hh : L.head_ with
          | mk nx => rw [hh] at hn; simp at hn; rw [hn]
        simp [Clear, hn, this]
      · intro a ha
        rcases ha with ha | ⟨z, hz, _⟩
        · exact ha
        · cases hz
  | cons x rest ih =>
    intro h L fuel hc hf
    have hne := Chain.head_not_mem hc
    obtain ⟨e, q, c, r⟩ := hc
    cases fuel with
    | zero => omega
    | succ n =>
      have hn : rest.length < n := by simp at hf; omega
      have hfr : Chain (⟨fun b => if b = x.1 then none else h.cells b, h.fresh⟩ : Heap α)
          q rest := r.frame (fun z hz => by simp [hne z hz])
      obtain ⟨h1, hev, hrel⟩ := ih ⟨fun b => if b = x.1 then none else h.cells b, h.fresh⟩
        { L with head_ := ⟨q⟩ } n hfr hn
      refine ⟨h1, ?_, ?_⟩
      · simp [Clear, e, getNext, c, Heap.free, bind, Except.bind]
        simpa using hev
      · intro a ha
        by_cases hax : a = x.1
        · apply hrel
          left
          simp [hax]
        · apply hrel
          rcases ha with ha | ⟨z, hz, hza⟩
          · left
            simp [hax, ha]
          · right
            cases hz with
            | head => exact absurd hza.symm hax
            | tail _ hz1 => exact ⟨z, hz1, hza⟩

/-- The positions of a list are the sentinel and the live nodes of its chain:
the next link of each of them can be read. -/
theorem Chain.position_readable {h : Heap α} {L : SingleLinkedList}
    {pre post : List (Nat × α)} (hc : Chain h L.head_.next_node (pre ++ post)) :
    lastPtr L.self pre ≠ Ptr.null ∧ ∃ nx, getNext h L (lastPtr L.self pre) = Except.ok nx := by
  rcases List.eq_nil_or_concat pre with rfl | ⟨s, y, rfl⟩
  · simp [lastPtr_nil, getNext]
  · simp only [List.concat_eq_append] at *
    obtain ⟨q, hq⟩ := Chain.live hc y (by simp)
    rw [lastPtr_concat]
    simp [getNext, hq]

/-- When the creation of the node succeeds, `InsertAfterMayThrow` is `InsertAfter`. -/
theorem InsertAfterMayThrow_true (h : Heap α) (L : SingleLinkedList) (pos : Ptr) (v : α) :
    InsertAfterMayThrow true h L pos v =
      (InsertAfter h L pos v).map (fun r => Completion.returned r.1 r.2.1 r.2.2) := by
  unfold InsertAfterMayThrow InsertAfter
  by_cases h0 : pos = Ptr.null
  · simp [h0, Except.map]
  · by_cases h1 : pos = L.last_
    · subst h1
      simp only [h0, if_true, if_false, Heap.allocMayThrow]
      cases hs : setNext (h.alloc v Ptr.null).1 L L.last_ (h.alloc v Ptr.null).2 with
      | error e => simp [hs, bind, Except.bind, Except.map]
      | ok s =>
        cases hg : getNext s.1 s.2 s.2.last_ with
        | error e => simp [hs, hg, bind, Except.bind, Except.map]
        | ok r => simp [hs, hg, bind, Except.bind, Except.map]
    · simp only [h0, h1, if_false, Heap.allocMayThrow]
      cases hn : getNext h L pos with
      | error e => simp [bind, Except.bind, Except.map]
      | ok nx =>
        cases hs : setNext (h.alloc v nx).1 L pos (h.alloc v nx).2 with
        | error e => simp [hs, bind, Except.bind, Except.map]
        | ok s =>
          cases hg : getNext s.1 { s.2 with size_ := sizeInc s.2.size_ } pos with
          | error e => simp [hs, hg, bind, Except.bind, Except.map]
          | ok r => simp [hs, hg, bind, Except.bind, Except.map]

/-- C14: on every list, whatever its length, Clear returns (given a loop budget
above the length of the chain); afterwards IsEmpty() is true, GetSize() is 0,
the mutable end() equals begin(), iterating the list yields nothing, and every
node of the old chain has been released. -/
theorem Clear_spec (h : Heap α) (L : SingleLinkedList) (xs : List (Nat × α)) (fuel : Nat)
    (hc : Chain h L.head_.next_node xs) (hf : xs.length < fuel) :
    ∃ h1 L1, Clear fuel h L = Except.ok (h1, L1) ∧
      IsEmpty L1 = true ∧ GetSize L1 = 0 ∧
      end_mut fuel h1 L1 = Except.ok (begin L1) ∧
      elements fuel h1 L1 = Except.ok [] ∧
      ∀ z ∈ xs, h1.cells z.1 = none := by
  obtain ⟨h1, hev, hrel⟩ := Clear_eval xs h L fuel hc hf
  refine ⟨h1, _, hev, rfl, rfl, ?_, ?_, ?_⟩
  · cases fuel with
    | zero => omega
    | succ n => simp [end_mut, endWalk, begin]
  · cases fuel with
    | zero => omega
    | succ n => simp [elements, end_mut, endWalk, begin, iterate, bind, Except.bind]
  · intro z hz
    exact hrel z.1 (Or.inr ⟨z, hz, rfl⟩)

/-- C14, at a concrete input: Clear on the list `[5, 7]`. -/
theorem Clear_spec_witness :
    Chain exFiveSeven.1 exFiveSeven.2.head_.next_node [(1, (5 : Int)), (0, 7)] ∧
    [(1, (5 : Int)), (0, 7)].length < 3 ∧
    ∃ h1 L1, Clear 3 exFiveSeven.1 exFiveSeven.2 = Except.ok (h1, L1) ∧
      IsEmpty L1 = true ∧ GetSize L1 = 0 ∧
      end_mut 3 h1 L1 = Except.ok (begin L1) ∧
      elements 3 h1 L1 = Except.ok [] ∧
      ∀ z ∈ [(1, (5 : Int)), (0, 7)], h1.cells z.1 = none :=
  have hc : Chain exFiveSeven.1 exFiveSeven.2.head_.next_node [(1, (5 : Int)), (0, 7)] :=
    ⟨rfl, Ptr.node 0, rfl, rfl, Ptr.null, rfl, rfl⟩
  ⟨hc, by decide, Clear_spec exFiveSeven.1 exFiveSeven.2 [(1, 5), (0, 7)] 3 hc (by decide)⟩

/-- C17: for every list with chain `pre ++ post` and every position of it (the
sentinel when `pre` is empty, else the last node of `pre`, the tail included),
if the creation of the new node throws during InsertAfter, the exception leaves
the function with the free store and the list object exactly as they were
(same chain, same size, same tail reference); and when the creation succeeds
the function does what `InsertAfter` does. -/
theorem InsertAfter_strong_guarantee (h : Heap α) (L : SingleLinkedList)
    (pre post : List (Nat × α)) (v : α) (hc : Chain h L.head_.next_node (pre ++ post)) :
    InsertAfterMayThrow false h L (lastPtr L.self pre) v =
        Except.ok (Completion.thrown h L) ∧
    InsertAfterMayThrow true h L (lastPtr L.self pre) v =
      (InsertAfter h L (lastPtr L.self pre) v).map
        (fun r => Completion.returned r.1 r.2.1 r.2.2) := by
  refine ⟨?_, InsertAfterMayThrow_true h L _ v⟩
  obtain ⟨hne, nx, hnx⟩ := Chain.position_readable hc
  unfold InsertAfterMayThrow
  by_cases h1 : lastPtr L.self pre = L.last_
  · simp [hne, h1, Heap.allocMayThrow]
    rw [← h1]
    exact hne
  · simp [hne, h1, hnx, Heap.allocMayThrow, bind, Except.bind]

/-- C17, at a concrete input: a throwing InsertAfter behind the first node of
the list `[5, 7]`. -/
theorem InsertAfter_strong_guarantee_witness :
    Chain exFiveSeven.1 exFiveSeven.2.head_.next_node ([(1, (5 : Int))] ++ [(0, 7)]) ∧
    InsertAfterMayThrow false exFiveSeven.1 exFiveSeven.2
        (lastPtr exFiveSeven.2.self [(1, (5 : Int))]) 6 =
      Except.ok (Completion.thrown exFiveSeven.1 exFiveSeven.2) ∧
    InsertAfterMayThrow true exFiveSeven.1 exFiveSeven.2
        (lastPtr exFiveSeven.2.self [(1, (5 : Int))]) 6 =
      (InsertAfter exFiveSeven.1 exFiveSeven.2
        (lastPtr exFiveSeven.2.self [(1, (5 : Int))]) 6).map
        (fun r => Completion.returned r.1 r.2.1 r.2.2) :=
  have hc : Chain exFiveSeven.1 exFiveSeven.2.head_.next_node
      ([(1, (5 : Int))] ++ [(0, 7)]) :=
    ⟨rfl, Ptr.node 0, rfl, rfl, Ptr.null, rfl, rfl⟩
  ⟨hc, InsertAfter_strong_guarantee exFiveSeven.1 exFiveSeven.2 [(1, 5)] [(0, 7)] 6 hc⟩

end SLL
